import Mathlib

/-!
Shallow embedding of the campus social application (friendships, presence
shares, reviews, events, memories) and verification of its specified
properties. User ids are natural numbers; timestamps are integers (seconds).
-/

namespace FindMe

/-- Status of a Friendship row (models.Friendship.FRIENDSHIP_STATUS). -/
inductive FriendStatus
  | pending
  | accepted
  | blocked
  deriving DecidableEq, Repr

/-- A row of the Friendship table (models.Friendship): one ordered pair
(user1 initiator, user2 recipient) with a status. -/
structure Friendship where
  friendship_id : Nat
  user1 : Nat
  user2 : Nat
  status : FriendStatus
  accepted_at : Option Int
  deriving DecidableEq, Repr

/-- FriendshipManager.are_friends: an accepted row exists in either ordering. -/
def areFriends (fs : List Friendship) (u1 u2 : Nat) : Bool :=
  fs.any fun f =>
    (decide (f.user1 = u1) && decide (f.user2 = u2) && decide (f.status = .accepted)) ||
    (decide (f.user1 = u2) && decide (f.user2 = u1) && decide (f.status = .accepted))

/-- Membership test of FriendshipManager.get_friends: u is in get_friends(user)
iff an accepted row (user, u) or (u, user) exists. -/
def getFriendsMem (fs : List Friendship) (user u : Nat) : Bool :=
  fs.any fun f =>
    (decide (f.user1 = user) && decide (f.user2 = u) && decide (f.status = .accepted)) ||
    (decide (f.user1 = u) && decide (f.user2 = user) && decide (f.status = .accepted))

/-- Error taxonomy of the request handlers (user-facing failure messages). -/
inductive Err
  | notFound
  | forbidden
  | conflict
  | capacity
  | invalidInput
  deriving DecidableEq, Repr

/-- A row matching the existing-relation filter of send_friend_request:
Q(user1=a, user2=b) | Q(user1=b, user2=a), any status. -/
def sameUnorderedPair (a b : Nat) (f : Friendship) : Bool :=
  (decide (f.user1 = a) && decide (f.user2 = b)) ||
  (decide (f.user1 = b) && decide (f.user2 = a))

/-- Existing-relation check of send_friend_request (either direction, any status). -/
def relationExists (fs : List Friendship) (a b : Nat) : Bool :=
  fs.any (sameUnorderedPair a b)

/-- Fresh primary key for a new Friendship row (AutoField). -/
def freshFriendshipId (fs : List Friendship) : Nat :=
  fs.foldl (fun m f => max m f.friendship_id) 0 + 1

/-- views.send_friend_request: refuse when a relation already exists in either
direction, else create a pending row with the caller as initiator. -/
def sendFriendRequest (fs : List Friendship) (a b : Nat) : Except Err (List Friendship) :=
  if relationExists fs a b then .error .conflict
  else .ok (fs ++ [⟨freshFriendshipId fs, a, b, .pending, none⟩])

/-- Decision of respond_friend_request. -/
inductive RespondAction
  | accept
  | reject
  deriving DecidableEq, Repr

/-- Row filter of respond_friend_request: get_object_or_404(Friendship,
friendship_id=fid, user2=responder, status=pending). -/
def respondTarget (fid responder : Nat) (f : Friendship) : Bool :=
  decide (f.friendship_id = fid) && decide (f.user2 = responder) &&
    decide (f.status = .pending)

/-- views.respond_friend_request: only the recipient of a pending request may
respond; accept sets status=accepted and records the time, reject deletes. -/
def respondFriendRequest (fs : List Friendship) (fid responder : Nat) (now : Int)
    (act : RespondAction) : Except Err (List Friendship) :=
  if fs.any (respondTarget fid responder) then
    match act with
    | .accept => .ok (fs.map fun f =>
        if respondTarget fid responder f then
          { f with status := .accepted, accepted_at := some now }
        else f)
    | .reject => .ok (fs.filter fun f => !(respondTarget fid responder f))
  else .error .notFound

/-! ## Presence / location-sharing ledger -/

/-- A row of the LocationShare table (models.LocationShare), restricted to the
fields the handlers read and write. -/
structure LocationShare where
  user : Nat
  location : String
  shared_at : Int
  expires_at : Int
  is_active : Bool
  status_message : String
  deriving DecidableEq, Repr

/-- Share lifetime: timedelta(hours=4), in seconds. -/
def fourHours : Int := 4 * 60 * 60

/-- Recency window of the friends feed: timedelta(hours=24), in seconds. -/
def twentyFourHours : Int := 24 * 60 * 60

/-- Expiry sweep at the top of views.dashboard: bulk update setting
is_active=False on every row with expires_at <= now and is_active=True. -/
def sweepExpiredShares (db : List LocationShare) (now : Int) : List LocationShare :=
  db.map fun s =>
    if decide (s.expires_at ≤ now) && s.is_active then { s with is_active := false } else s

/-- views.dashboard action share_location, share-table part: deactivate all of
the callers active shares, then insert one new active share expiring at
now + 4 hours. (The handler additionally recomputes the locations
active_users_count, a Location-table write not modelled here.) -/
def shareLocation (db : List LocationShare) (u : Nat) (loc : String) (msg : String)
    (now : Int) : List LocationShare :=
  (db.map fun s =>
    if decide (s.user = u) && s.is_active then { s with is_active := false } else s)
  ++ [⟨u, loc, now, now + fourHours, true, msg⟩]

/-- Row filter of the friends_recent_shares query in views.dashboard:
user in friends, is_active=True, expires_at > now, shared_at >= now - 24h. -/
def friendsSharePred (fs : List Friendship) (viewer : Nat) (now : Int)
    (s : LocationShare) : Bool :=
  getFriendsMem fs viewer s.user && s.is_active &&
    decide (now < s.expires_at) && decide (now - twentyFourHours ≤ s.shared_at)

/-- Ordering key of the friends feed: order_by -shared_at (newest first). -/
def sharedAtDesc (a b : LocationShare) : Prop := b.shared_at ≤ a.shared_at

instance : DecidableRel sharedAtDesc := fun a b =>
  inferInstanceAs (Decidable (b.shared_at ≤ a.shared_at))

/-- views.dashboard friends_recent_shares query: filter, order newest-first,
limit to 20 rows. -/
def friendsRecentShares (fs : List Friendship) (viewer : Nat) (db : List LocationShare)
    (now : Int) : List LocationShare :=
  (((db.filter (friendsSharePred fs viewer now)).insertionSort sharedAtDesc).take 20)

/-! ## Review aggregator -/

/-- Crowd level reported with a review (models.LocationReview.CROWD_LEVELS). -/
inductive CrowdLevel
  | light
  | moderate
  | heavy
  deriving DecidableEq, Repr

/-- A row of the LocationReview table (models.LocationReview), restricted to
the fields the handlers read and write. -/
structure LocationReview where
  user : Nat
  location : String
  wifi_rating : Nat
  cleanliness_rating : Nat
  noise_rating : Nat
  general_rating : ℚ
  crowd_level : CrowdLevel
  review_text : String
  created_at : Int
  deriving DecidableEq, Repr

/-- Rounding to one decimal place, as Python round(x, 1). Pythons float
round is round-half-to-even, but for the values (w+c+n)/3 with integer
sub-ratings in 1..10 the scaled value 10*(w+c+n)/3 is never a half-integer
and never falls within float error of one, so any nearest-integer rounding
is an exact model. -/
def roundTenth (q : ℚ) : ℚ := (round (10 * q) : ℤ) / 10

/-- LocationReview.save: always recompute general_rating as the rounded mean
of the three sub-ratings before persisting. -/
def LocationReview.save (r : LocationReview) : LocationReview :=
  { r with general_rating :=
      roundTenth ((r.wifi_rating + r.cleanliness_rating + r.noise_rating : ℚ) / 3) }

/-- Row filter of the existing-review lookup in the submit_review action:
LocationReview.objects.filter(user=u, location=loc). -/
def reviewMatches (u : Nat) (loc : String) (r : LocationReview) : Bool :=
  decide (r.user = u) && decide (r.location = loc)

/-- Rating validation of the submit_review action: the three integer ratings
must be in 1..10 and the caller-supplied general rating in 1.0..10.0. -/
def ratingsValid (w c n : Nat) (g : ℚ) : Bool :=
  decide (1 ≤ w) && decide (w ≤ 10) && decide (1 ≤ c) && decide (c ≤ 10) &&
  decide (1 ≤ n) && decide (n ≤ 10) && decide ((1 : ℚ) ≤ g) && decide (g ≤ 10)

/-- Update-or-insert core of the submit_review action: the first row matching
(user, location) is updated in place (all submitted fields overwritten and
created_at reset to now); if none matches a new row is created. Both paths go
through LocationReview.save. -/
def upsertReview (db : List LocationReview) (u : Nat) (loc : String)
    (w c n : Nat) (g : ℚ) (crowd : CrowdLevel) (text : String) (now : Int) :
    List LocationReview :=
  match db with
  | [] => [LocationReview.save ⟨u, loc, w, c, n, g, crowd, text, now⟩]
  | r :: rest =>
    if reviewMatches u loc r then
      LocationReview.save { r with
        wifi_rating := w, cleanliness_rating := c, noise_rating := n,
        general_rating := g, crowd_level := crowd, review_text := text,
        created_at := now } :: rest
    else r :: upsertReview rest u loc w c n g crowd text now

/-- views.dashboard action submit_review: reject out-of-range ratings, else
update the existing (user, location) review in place or insert a new one. -/
def submitReview (db : List LocationReview) (u : Nat) (loc : String)
    (w c n : Nat) (g : ℚ) (crowd : CrowdLevel) (text : String) (now : Int) :
    Except Err (List LocationReview) :=
  if ratingsValid w c n g then .ok (upsertReview db u loc w c n g crowd text now)
  else .error .invalidInput

/-! ## Event coordinator -/

/-- Event status (models.Event.STATUS_CHOICES). -/
inductive EventStatus
  | active
  | cancelled
  | completed
  | full
  deriving DecidableEq, Repr

/-- A row of the Event table (models.Event), restricted to the fields the
handlers read and write. -/
structure Event where
  event_id : Nat
  organizer : Nat
  location : String
  event_start : Int
  event_end : Int
  max_participants : Nat
  current_participants : Nat
  participant_user_ids : List Nat
  status : EventStatus
  is_started : Bool
  started_at : Option Int
  deriving DecidableEq, Repr

/-- Activity types of the event audit log (models.EventActivity.ACTIVITY_TYPES). -/
inductive ActivityType
  | created
  | started
  | joined
  | left
  | cancelled
  | ended
  deriving DecidableEq, Repr

/-- A row of the EventActivity table (models.EventActivity). -/
structure EventActivity where
  user : Nat
  event_id : Nat
  activity_type : ActivityType
  deriving DecidableEq, Repr

/-- Event.save: if the organizer is missing from the participant list (or the
list is empty, which implies the same), append the organizer and reset
current_participants to the list length. The organizer_id is always set for a
persisted row, so the truthiness guard on it is always satisfied. -/
def Event.save (e : Event) : Event :=
  if decide (e.organizer ∈ e.participant_user_ids) then e
  else
    let ids := e.participant_user_ids ++ [e.organizer]
    { e with participant_user_ids := ids, current_participants := ids.length }

/-- Event.get_current_participants: length of the participant list (0 when
empty, which is the length of the empty list). -/
def Event.get_current_participants (e : Event) : Nat :=
  e.participant_user_ids.length

/-- Event.can_join: space remains while the roster is shorter than
max_participants. -/
def Event.can_join (e : Event) : Bool :=
  decide (e.get_current_participants < e.max_participants)

/-- views.dashboard action create_event: reject non-positive capacity or
timing, else create the event (organizer pre-seeded in the roster with
count 1) and log a created activity. -/
def createEvent (organizer : Nat) (loc : String) (eid : Nat) (now : Int)
    (hoursFromNow durationHours : Int) (maxp : Nat) (log : List EventActivity) :
    Except Err (Event × List EventActivity) :=
  if decide (hoursFromNow < 0) || decide (durationHours < 1) || decide (maxp < 1) then
    .error .invalidInput
  else
    let start := now + hoursFromNow * 3600
    let e := Event.save
      { event_id := eid, organizer := organizer, location := loc,
        event_start := start, event_end := start + durationHours * 3600,
        max_participants := maxp, current_participants := 1,
        participant_user_ids := [organizer], status := .active,
        is_started := false, started_at := none }
    .ok (e, log ++ [⟨organizer, eid, .created⟩])

/-- Outcome of the join_event action (informational no-op, capacity failure,
or success). -/
inductive JoinOutcome
  | alreadyParticipating
  | eventFull
  | joined
  deriving DecidableEq, Repr

/-- views.dashboard action join_event: no-op when the caller is already in the
roster; fail when the event cannot be joined (roster at capacity); else append
the caller, reset the count, save, and log a joined activity. -/
def joinEvent (e : Event) (log : List EventActivity) (u : Nat) :
    JoinOutcome × Event × List EventActivity :=
  if decide (u ∈ e.participant_user_ids) then (.alreadyParticipating, e, log)
  else if !e.can_join then (.eventFull, e, log)
  else
    let ids := e.participant_user_ids ++ [u]
    let e2 := Event.save
      { e with participant_user_ids := ids, current_participants := ids.length }
    (.joined, e2, log ++ [⟨u, e.event_id, .joined⟩])

/-- Outcome of the leave_event action. -/
inductive LeaveOutcome
  | notParticipating
  | organizerForbidden
  | left
  deriving DecidableEq, Repr

/-- views.dashboard action leave_event: no-op when the caller is not in the
roster; refuse when the caller is the organizer; else remove the first
occurrence of the caller, reset the count, save, and log a left activity. -/
def leaveEvent (e : Event) (log : List EventActivity) (u : Nat) :
    LeaveOutcome × Event × List EventActivity :=
  if !(decide (u ∈ e.participant_user_ids)) then (.notParticipating, e, log)
  else if decide (e.organizer = u) then (.organizerForbidden, e, log)
  else
    let ids := e.participant_user_ids.erase u
    let e2 := Event.save
      { e with participant_user_ids := ids, current_participants := ids.length }
    (.left, e2, log ++ [⟨u, e.event_id, .left⟩])

/-- views.dashboard action start_event: only the organizer reaches the event
(get_object_or_404 filters organizer=caller); informational no-op when already
started; else set is_started, record the time, save, and log. -/
def startEvent (e : Event) (log : List EventActivity) (caller : Nat) (now : Int) :
    Except Err (Event × List EventActivity) :=
  if !(decide (e.organizer = caller)) then .error .notFound
  else if e.is_started then .ok (e, log)
  else
    let e2 := Event.save { e with is_started := true, started_at := some now }
    .ok (e2, log ++ [⟨caller, e.event_id, .started⟩])

/-- views.dashboard action cancel_event: only the organizer reaches the event;
the cancelled activity is logged before the status transition. -/
def cancelEvent (e : Event) (log : List EventActivity) (caller : Nat) :
    Except Err (Event × List EventActivity) :=
  if !(decide (e.organizer = caller)) then .error .notFound
  else
    let log2 := log ++ [⟨caller, e.event_id, .cancelled⟩]
    let e2 := Event.save { e with status := .cancelled }
    .ok (e2, log2)

/-! ## Memory / content store -/

/-- Memory visibility (models.Memory.VISIBILITY_CHOICES). -/
inductive Visibility
  | visPublic
  | visFriends
  | visPrivate
  deriving DecidableEq, Repr

/-- Media classification (models.Memory.MEDIA_TYPES). -/
inductive MediaType
  | image
  | video
  | audio
  | noMedia
  deriving DecidableEq, Repr

/-- A row of the Memory table (models.Memory), restricted to the fields the
handlers read and write. -/
structure Memory where
  memory_id : Nat
  user : Nat
  location : String
  creation_date : Int
  memory_title : String
  description : String
  media_type : MediaType
  visibility : Visibility
  is_archived : Bool
  tags : List String
  likes_count : Nat
  liked_by_user_ids : List Nat
  view_count : Nat
  deriving DecidableEq, Repr

/-- Memory.can_view. The viewer is none when unauthenticated, some u for an
authenticated user u; an unauthenticated viewer sees only public memories,
otherwise the branch on visibility applies (the trailing return False of the
source is unreachable for a well-formed visibility value). -/
def Memory.can_view (fs : List Friendship) (m : Memory) (viewer : Option Nat) : Bool :=
  match viewer with
  | none => decide (m.visibility = .visPublic)
  | some u =>
    match m.visibility with
    | .visPublic => true
    | .visPrivate => decide (m.user = u)
    | .visFriends => decide (m.user = u) || areFriends fs m.user u

/-- Row filter of MemoryManager.get_visible_memories: Q(visibility=public) |
Q(visibility=friends, user__in=friends) | Q(visibility=friends, user=viewer) |
Q(visibility=private, user=viewer). -/
def memoryVisibleQ (fs : List Friendship) (viewer : Nat) (m : Memory) : Bool :=
  decide (m.visibility = .visPublic) ||
  (decide (m.visibility = .visFriends) && getFriendsMem fs viewer m.user) ||
  (decide (m.visibility = .visFriends) && decide (m.user = viewer)) ||
  (decide (m.visibility = .visPrivate) && decide (m.user = viewer))

/-- Ordering key of memory queries: order_by -creation_date (newest first). -/
def creationDesc (a b : Memory) : Prop := b.creation_date ≤ a.creation_date

instance : DecidableRel creationDesc := fun a b =>
  inferInstanceAs (Decidable (b.creation_date ≤ a.creation_date))

instance : IsTotal Memory creationDesc :=
  ⟨fun a b => le_total b.creation_date a.creation_date⟩

instance : IsTrans Memory creationDesc :=
  ⟨fun _ _ _ h1 h2 => le_trans h2 h1⟩

/-- views.memories_feed read path: get_visible_memories(viewer) further
filtered by is_archived=False; the newest-first ordering of the manager query
applies to the resulting rows. -/
def memoriesFeed (fs : List Friendship) (viewer : Nat) (db : List Memory) :
    List Memory :=
  ((db.filter (memoryVisibleQ fs viewer)).filter
    (fun m => !m.is_archived)).insertionSort creationDesc

/-- views.my_memories action archive_memory on a single row: the lookup
get_object_or_404(Memory, memory_id=..., user=request.user) fails with
NotFound unless the caller owns the memory; on success is_archived is flipped
and only that field is written (save(update_fields=[is_archived])). -/
def archiveMemory (m : Memory) (caller : Nat) : Except Err Memory :=
  if decide (m.user = caller) then .ok { m with is_archived := !m.is_archived }
  else .error .notFound

/-- Concrete event used by witness theorems: organizer 10, participant 11,
capacity 2 (at capacity). -/
def sampleEvent : Event :=
  ⟨1, 10, "L", 0, 3600, 2, 2, [10, 11], .active, false, none⟩

/-- Concrete memory used by witness theorems: authored by user 3. -/
def sampleMemory : Memory :=
  ⟨1, 3, "L", 0, "t", "d", .noMedia, .visFriends, false, [], 0, [], 0⟩

/-! ## Theorems -/

/-- C1: a private memory is viewable only by its author (and by no
unauthenticated viewer); a friends memory exactly by the author or a friend of
the author; a public memory by everyone; an unauthenticated viewer sees
exactly the public memories. -/
theorem can_view_spec (fs : List Friendship) (m : Memory) :
    (∀ v : Option Nat, m.can_view fs v = true ↔
      (m.visibility = .visPublic ∨ v = some m.user ∨
        (m.visibility = .visFriends ∧ ∃ u, v = some u ∧ areFriends fs m.user u = true))) ∧
    (m.can_view fs none = true ↔ m.visibility = .visPublic) := by
  constructor
  · intro v
    cases v with
    | none => cases h : m.visibility <;> simp [Memory.can_view, h]
    | some u =>
      cases h : m.visibility <;>
        simp [Memory.can_view, h, eq_comm (a := m.user) (b := u)]
  · cases h : m.visibility <;> simp [Memory.can_view, h]

/-- C3: after a share_location call, exactly one share row of the caller is
active and unexpired, and every active row of the caller carries the expiry
now + 4 hours (the freshly inserted row). -/
theorem shareLocation_single_active (db : List LocationShare) (u : Nat)
    (loc msg : String) (now : Int) :
    ((shareLocation db u loc msg now).countP
      (fun s => decide (s.user = u) && s.is_active && decide (now < s.expires_at)) = 1) ∧
    (∀ s ∈ shareLocation db u loc msg now, s.user = u → s.is_active = true →
      s.expires_at = now + fourHours) := by
  have hlt : now < now + fourHours := by simp only [fourHours]; omega
  constructor
  · rw [shareLocation, List.countP_append, List.countP_map]
    have hmap : ∀ s ∈ db,
        ¬((fun s => decide (s.user = u) && s.is_active && decide (now < s.expires_at)) ∘
          (fun s => if decide (s.user = u) && s.is_active then
            { s with is_active := false } else s)) s := by
      intro s _
      simp only [Function.comp_apply]
      by_cases hc : (decide (s.user = u) && s.is_active) = true
      · rw [if_pos hc]
        simp
      · rw [if_neg hc]
        intro h
        exact hc ((Bool.and_eq_true _ _).mp h).1
    rw [List.countP_eq_zero.mpr hmap]
    simp [List.countP_cons, hlt]
  · intro s hs hu hact
    rcases List.mem_append.mp hs with hmem | hmem
    · rcases List.mem_map.mp hmem with ⟨s0, _, rfl⟩
      by_cases hc : (decide (s0.user = u) && s0.is_active) = true
      · rw [if_pos hc] at hact
        simp at hact
      · rw [if_neg hc] at hu hact
        exact absurd (by simp [hu, hact]) hc
    · simp only [List.mem_singleton] at hmem
      subst hmem
      rfl

/-- Witness for C3 at a concrete ledger: a previous active share of user 7
exists and a new one is inserted. -/
theorem shareLocation_single_active_witness :
    ((shareLocation [⟨7, "L1", 0, 100, true, "s"⟩] 7 "L2" "b" 50).countP
      (fun s => decide (s.user = 7) && s.is_active && decide ((50 : Int) < s.expires_at)) = 1) ∧
    (∀ s ∈ shareLocation [⟨7, "L1", 0, 100, true, "s"⟩] 7 "L2" "b" 50, s.user = 7 →
      s.is_active = true → s.expires_at = 50 + fourHours) :=
  shareLocation_single_active [⟨7, "L1", 0, 100, true, "s"⟩] 7 "L2" "b" 50

/-- C2: from a state with no relation between a and b, request(a, b) followed
by b accepting makes areFriends true in both orderings, while exactly one
ordered row between a and b is stored. -/
theorem request_accept_friends (fs : List Friendship) (a b : Nat) (now : Int)
    (h : relationExists fs a b = false) :
    ∃ fs1 fs2,
      sendFriendRequest fs a b = .ok fs1 ∧
      respondFriendRequest fs1 (freshFriendshipId fs) b now .accept = .ok fs2 ∧
      areFriends fs2 a b = true ∧ areFriends fs2 b a = true ∧
      fs2.countP (sameUnorderedPair a b) = 1 := by
  set fid := freshFriendshipId fs with hfid
  set newRow : Friendship := ⟨fid, a, b, .pending, none⟩ with hnew
  set upd : Friendship → Friendship := fun f =>
    if respondTarget fid b f then { f with status := .accepted, accepted_at := some now }
    else f with hupd
  have hmemNew : newRow ∈ fs ++ [newRow] :=
    List.mem_append_right _ (List.mem_singleton_self _)
  refine ⟨fs ++ [newRow], (fs ++ [newRow]).map upd, ?_, ?_, ?_, ?_, ?_⟩
  · simp [sendFriendRequest, h, hnew]
  · have hguard : (fs ++ [newRow]).any (respondTarget fid b) = true := by
      apply List.any_eq_true.mpr
      exact ⟨newRow, hmemNew, by simp [respondTarget, hnew]⟩
    simp [respondFriendRequest, hguard, hupd]
  · apply List.any_eq_true.mpr
    refine ⟨upd newRow, List.mem_map_of_mem upd hmemNew, ?_⟩
    simp [hupd, hnew, respondTarget]
  · apply List.any_eq_true.mpr
    refine ⟨upd newRow, List.mem_map_of_mem upd hmemNew, ?_⟩
    simp [hupd, hnew, respondTarget]
  · rw [List.countP_map]
    have hcomp : (sameUnorderedPair a b ∘ upd) = sameUnorderedPair a b := by
      funext f
      simp only [Function.comp_apply, hupd]
      by_cases hc : respondTarget fid b f = true
      · rw [if_pos hc]
        rfl
      · rw [if_neg hc]
    rw [hcomp, List.countP_append]
    have h0 : fs.countP (sameUnorderedPair a b) = 0 :=
      List.countP_eq_zero.mpr (fun f hf =>
        by simpa using (List.any_eq_false.mp (by simpa [relationExists] using h)) f hf)
    rw [h0]
    simp [hnew, sameUnorderedPair, List.countP_cons]

/-- Witness for C2: users 3 and 4 with an empty friendship table. -/
theorem request_accept_friends_witness :
    ∃ fs1 fs2,
      sendFriendRequest [] 3 4 = .ok fs1 ∧
      respondFriendRequest fs1 (freshFriendshipId []) 4 99 .accept = .ok fs2 ∧
      areFriends fs2 3 4 = true ∧ areFriends fs2 4 3 = true ∧
      fs2.countP (sameUnorderedPair 3 4) = 1 :=
  request_accept_friends [] 3 4 99 (by decide)

/-- Helper: under the unique-together constraint (at most one review row per
(user, location)), the upsert core leaves exactly one matching row, preserves
the row count when a row already existed, and the matching row carries the
submitted fields with the recomputed general rating. -/
theorem upsertReview_spec (db : List LocationReview) (u : Nat) (loc : String)
    (w c n : Nat) (g : ℚ) (crowd : CrowdLevel) (text : String) (now : Int)
    (h : db.countP (reviewMatches u loc) ≤ 1) :
    (upsertReview db u loc w c n g crowd text now).countP (reviewMatches u loc) = 1 ∧
    (db.countP (reviewMatches u loc) = 1 →
      (upsertReview db u loc w c n g crowd text now).length = db.length) ∧
    ∀ r ∈ upsertReview db u loc w c n g crowd text now, reviewMatches u loc r = true →
      r.wifi_rating = w ∧ r.cleanliness_rating = c ∧ r.noise_rating = n ∧
      r.crowd_level = crowd ∧ r.review_text = text ∧ r.created_at = now ∧
      r.general_rating = roundTenth ((w + c + n : ℚ) / 3) := by
  induction db with
  | nil =>
    refine ⟨?_, ?_, ?_⟩
    · simp [upsertReview, List.countP_cons, reviewMatches, LocationReview.save]
    · intro h1
      simp at h1
    · intro r hr hm
      simp only [upsertReview, List.mem_singleton] at hr
      subst hr
      exact ⟨rfl, rfl, rfl, rfl, rfl, rfl, rfl⟩
  | cons r0 rest ih =>
    rw [List.countP_cons] at h
    by_cases hm0 : reviewMatches u loc r0 = true
    · rw [if_pos hm0] at h
      have hrest : rest.countP (reviewMatches u loc) = 0 := by omega
      obtain ⟨hu, hl⟩ : r0.user = u ∧ r0.location = loc := by
        simpa [reviewMatches] using hm0
      simp only [upsertReview, if_pos hm0]
      refine ⟨?_, ?_, ?_⟩
      · simp [List.countP_cons, hrest, reviewMatches, LocationReview.save, hu, hl]
      · intro _
        rfl
      · intro r hr hm
        rcases List.mem_cons.mp hr with rfl | hr2
        · exact ⟨rfl, rfl, rfl, rfl, rfl, rfl, rfl⟩
        · exact absurd hm (List.countP_eq_zero.mp hrest r hr2)
    · rw [if_neg hm0] at h
      have h2 : rest.countP (reviewMatches u loc) ≤ 1 := by omega
      obtain ⟨ih1, ih2, ih3⟩ := ih h2
      simp only [upsertReview, if_neg hm0]
      refine ⟨?_, ?_, ?_⟩
      · rw [List.countP_cons, ih1, if_neg hm0]
      · intro h1
        rw [List.countP_cons, if_neg hm0] at h1
        simp only [List.length_cons, ih2 (by omega)]
      · intro r hr hm
        rcases List.mem_cons.mp hr with rfl | hr2
        · exact absurd hm hm0
        · exact ih3 r hr2 hm

/-- C4: submitting a second review for the same (user, location) updates the
single existing row in place, overwriting its sub-ratings, crowd level and
text, and the table keeps exactly one matching row and the same size. -/
theorem review_upsert_no_duplicate (db : List LocationReview) (u : Nat) (loc : String)
    (w1 c1 n1 : Nat) (g1 : ℚ) (cr1 : CrowdLevel) (t1 : String) (now1 : Int)
    (w2 c2 n2 : Nat) (g2 : ℚ) (cr2 : CrowdLevel) (t2 : String) (now2 : Int)
    (hdb : db.countP (reviewMatches u loc) = 0)
    (hv1 : ratingsValid w1 c1 n1 g1 = true) (hv2 : ratingsValid w2 c2 n2 g2 = true) :
    ∃ db1 db2,
      submitReview db u loc w1 c1 n1 g1 cr1 t1 now1 = .ok db1 ∧
      submitReview db1 u loc w2 c2 n2 g2 cr2 t2 now2 = .ok db2 ∧
      db1.countP (reviewMatches u loc) = 1 ∧
      db2.countP (reviewMatches u loc) = 1 ∧
      db2.length = db1.length ∧
      ∀ r ∈ db2, reviewMatches u loc r = true →
        r.wifi_rating = w2 ∧ r.cleanliness_rating = c2 ∧ r.noise_rating = n2 ∧
        r.crowd_level = cr2 ∧ r.review_text = t2 := by
  obtain ⟨s1, _, _⟩ :=
    upsertReview_spec db u loc w1 c1 n1 g1 cr1 t1 now1 (by omega)
  obtain ⟨s2a, s2b, s2c⟩ :=
    upsertReview_spec (upsertReview db u loc w1 c1 n1 g1 cr1 t1 now1)
      u loc w2 c2 n2 g2 cr2 t2 now2 (by omega)
  refine ⟨_, _, ?_, ?_, s1, s2a, s2b s1, ?_⟩
  · simp [submitReview, hv1]
  · simp [submitReview, hv2]
  · intro r hr hm
    obtain ⟨f1, f2, f3, f4, f5, _, _⟩ := s2c r hr hm
    exact ⟨f1, f2, f3, f4, f5⟩

/-- Witness for C4: two submissions by user 2 for location L on an empty
review table. -/
theorem review_upsert_no_duplicate_witness :
    ∃ db1 db2,
      submitReview [] 2 "L" 3 4 5 6 .light "first" 10 = .ok db1 ∧
      submitReview db1 2 "L" 7 8 9 2 .heavy "second" 20 = .ok db2 ∧
      db1.countP (reviewMatches 2 "L") = 1 ∧
      db2.countP (reviewMatches 2 "L") = 1 ∧
      db2.length = db1.length ∧
      ∀ r ∈ db2, reviewMatches 2 "L" r = true →
        r.wifi_rating = 7 ∧ r.cleanliness_rating = 8 ∧ r.noise_rating = 9 ∧
        r.crowd_level = .heavy ∧ r.review_text = "second" :=
  review_upsert_no_duplicate [] 2 "L" 3 4 5 6 .light "first" 10
    7 8 9 2 .heavy "second" 20 (by decide) (by decide) (by decide)

/-- C9: the model save recomputes general_rating as the rounded mean of the
three sub-ratings, and after any submit (insert or in-place update) the
matching row carries that value, regardless of the caller-supplied general
rating g. -/
theorem general_rating_recomputed (db : List LocationReview) (u : Nat) (loc : String)
    (w c n : Nat) (g : ℚ) (crowd : CrowdLevel) (text : String) (now : Int)
    (hdb : db.countP (reviewMatches u loc) ≤ 1)
    (hv : ratingsValid w c n g = true) :
    (∀ r : LocationReview, (LocationReview.save r).general_rating =
      roundTenth ((r.wifi_rating + r.cleanliness_rating + r.noise_rating : ℚ) / 3)) ∧
    ∃ db2, submitReview db u loc w c n g crowd text now = .ok db2 ∧
      ∀ r ∈ db2, reviewMatches u loc r = true →
        r.general_rating = roundTenth ((w + c + n : ℚ) / 3) := by
  obtain ⟨_, _, s3⟩ := upsertReview_spec db u loc w c n g crowd text now hdb
  refine ⟨fun r => rfl, upsertReview db u loc w c n g crowd text now, ?_, ?_⟩
  · simp [submitReview, hv]
  · intro r hr hm
    exact (s3 r hr hm).2.2.2.2.2.2

/-- Witness for C9: an update of an existing review of user 2 for location L;
the caller passes general rating 9 but the stored value is the rounded mean
round(10*(3+4+5)/3)/10 = 4. -/
theorem general_rating_recomputed_witness :
    (∀ r : LocationReview, (LocationReview.save r).general_rating =
      roundTenth ((r.wifi_rating + r.cleanliness_rating + r.noise_rating : ℚ) / 3)) ∧
    ∃ db2, submitReview [⟨2, "L", 1, 1, 1, 1, .light, "old", 0⟩] 2 "L"
        3 4 5 9 .moderate "new" 50 = .ok db2 ∧
      ∀ r ∈ db2, reviewMatches 2 "L" r = true →
        r.general_rating = roundTenth ((3 + 4 + 5 : ℚ) / 3) :=
  general_rating_recomputed [⟨2, "L", 1, 1, 1, 1, .light, "old", 0⟩] 2 "L"
    3 4 5 9 .moderate "new" 50 (by decide) (by decide)

/-- Helper: Event.save is the identity when the organizer is already in the
participant list. -/
theorem Event.save_of_mem (e : Event) (h : e.organizer ∈ e.participant_user_ids) :
    Event.save e = e := by
  rw [Event.save, if_pos (decide_eq_true h)]

/-- Helper: after Event.save the organizer is in the participant list. -/
theorem Event.save_organizer_mem (e : Event) :
    e.organizer ∈ (Event.save e).participant_user_ids := by
  rw [Event.save]
  by_cases hc : decide (e.organizer ∈ e.participant_user_ids) = true
  · rw [if_pos hc]
    exact of_decide_eq_true hc
  · rw [if_neg hc]
    exact List.mem_append_right _ (List.mem_singleton_self _)

/-- Helper: Event.save keeps the organizer in the roster when already there. -/
theorem Event.save_mem_of_mem (e : Event) (h : e.organizer ∈ e.participant_user_ids) :
    (Event.save e).organizer ∈ (Event.save e).participant_user_ids := by
  rw [Event.save_of_mem e h]
  exact h

/-- Helper: Event.save keeps both roster invariants when they already hold. -/
theorem Event.save_roster_invariant (e : Event)
    (h : e.organizer ∈ e.participant_user_ids)
    (h2 : e.current_participants = e.participant_user_ids.length) :
    (Event.save e).organizer ∈ (Event.save e).participant_user_ids ∧
    (Event.save e).current_participants = (Event.save e).participant_user_ids.length := by
  rw [Event.save_of_mem e h]
  exact ⟨h, h2⟩

/-- C5: joining an event at capacity as a new participant fails with the
capacity error and leaves the event row and the activity log untouched;
joining as an existing participant is a no-op regardless of capacity. -/
theorem join_event_capacity (e : Event) (log : List EventActivity) (u : Nat) :
    (u ∉ e.participant_user_ids →
      e.max_participants ≤ e.participant_user_ids.length →
      joinEvent e log u = (.eventFull, e, log)) ∧
    (u ∈ e.participant_user_ids →
      joinEvent e log u = (.alreadyParticipating, e, log)) := by
  constructor
  · intro hnot hcap
    have hfull : (!e.can_join) = true := by
      simp [Event.can_join, Event.get_current_participants]
      omega
    rw [joinEvent, if_neg (by simpa using hnot), if_pos hfull]
  · intro hmem
    rw [joinEvent, if_pos (decide_eq_true hmem)]

/-- Witness for C5: sampleEvent has roster [10, 11] and capacity 2; user 12
is refused for capacity and participant 10 gets the no-op. -/
theorem join_event_capacity_witness :
    joinEvent sampleEvent [] 12 = (.eventFull, sampleEvent, []) ∧
    joinEvent sampleEvent [] 10 = (.alreadyParticipating, sampleEvent, []) :=
  ⟨(join_event_capacity sampleEvent [] 12).1 (by decide) (by decide),
   (join_event_capacity sampleEvent [] 10).2 (by decide)⟩

/-- C6: the organizer is always in the participant roster: Event.save
re-establishes membership, creation seeds it, join and leave preserve it
together with current_participants = roster length, leave by the organizer is
refused without mutation, and start and cancel preserve membership. -/
theorem organizer_always_participant :
    (∀ e : Event, e.organizer ∈ (Event.save e).participant_user_ids) ∧
    (∀ org loc eid now hfn dur maxp log e2 log2,
      createEvent org loc eid now hfn dur maxp log = .ok (e2, log2) →
      org ∈ e2.participant_user_ids ∧
      e2.current_participants = e2.participant_user_ids.length) ∧
    (∀ e log u, e.organizer ∈ e.participant_user_ids →
      e.current_participants = e.participant_user_ids.length →
      (joinEvent e log u).2.1.organizer ∈ (joinEvent e log u).2.1.participant_user_ids ∧
      (joinEvent e log u).2.1.current_participants =
        (joinEvent e log u).2.1.participant_user_ids.length) ∧
    (∀ e log u, e.organizer ∈ e.participant_user_ids →
      e.current_participants = e.participant_user_ids.length →
      (leaveEvent e log u).2.1.organizer ∈ (leaveEvent e log u).2.1.participant_user_ids ∧
      (leaveEvent e log u).2.1.current_participants =
        (leaveEvent e log u).2.1.participant_user_ids.length) ∧
    (∀ e log, e.organizer ∈ e.participant_user_ids →
      leaveEvent e log e.organizer = (.organizerForbidden, e, log)) ∧
    (∀ e log caller now e2 log2, startEvent e log caller now = .ok (e2, log2) →
      e.organizer ∈ e.participant_user_ids → e2.organizer ∈ e2.participant_user_ids) ∧
    (∀ e log caller e2 log2, cancelEvent e log caller = .ok (e2, log2) →
      e.organizer ∈ e.participant_user_ids → e2.organizer ∈ e2.participant_user_ids) := by
  refine ⟨Event.save_organizer_mem, ?_, ?_, ?_, ?_, ?_, ?_⟩
  · intro org loc eid now hfn dur maxp log e2 log2 hok
    rw [createEvent] at hok
    by_cases hg : (decide (hfn < 0) || decide (dur < 1) || decide (maxp < 1)) = true
    · rw [if_pos hg] at hok
      cases hok
    · rw [if_neg hg] at hok
      simp only [Except.ok.injEq, Prod.mk.injEq] at hok
      obtain ⟨he, _⟩ := hok
      subst he
      rw [Event.save_of_mem _ (List.mem_singleton_self _)]
      exact ⟨List.mem_singleton_self _, rfl⟩
  · intro e log u h1 h2
    by_cases hin : decide (u ∈ e.participant_user_ids) = true
    · rw [joinEvent, if_pos hin]
      exact ⟨h1, h2⟩
    · by_cases hfull : (!e.can_join) = true
      · rw [joinEvent, if_neg hin, if_pos hfull]
        exact ⟨h1, h2⟩
      · have hj : joinEvent e log u =
            (.joined, Event.save { e with
              participant_user_ids := e.participant_user_ids ++ [u],
              current_participants := (e.participant_user_ids ++ [u]).length },
              log ++ [⟨u, e.event_id, .joined⟩]) := by
          rw [joinEvent, if_neg hin, if_neg hfull]
        rw [hj]
        exact Event.save_roster_invariant _ (List.mem_append_left _ h1) rfl
  · intro e log u h1 h2
    by_cases hin : (!decide (u ∈ e.participant_user_ids)) = true
    · rw [leaveEvent, if_pos hin]
      exact ⟨h1, h2⟩
    · by_cases horg : decide (e.organizer = u) = true
      · rw [leaveEvent, if_neg hin, if_pos horg]
        exact ⟨h1, h2⟩
      · have hne : e.organizer ≠ u := by simpa using horg
        have hl : leaveEvent e log u =
            (.left, Event.save { e with
              participant_user_ids := e.participant_user_ids.erase u,
              current_participants := (e.participant_user_ids.erase u).length },
              log ++ [⟨u, e.event_id, .left⟩]) := by
          rw [leaveEvent, if_neg hin, if_neg horg]
        rw [hl]
        exact Event.save_roster_invariant _ ((List.mem_erase_of_ne hne).mpr h1) rfl
  · intro e log h1
    rw [leaveEvent, if_neg (by simp [h1]), if_pos (by simp)]
  · intro e log caller now e2 log2 hok h1
    rw [startEvent] at hok
    by_cases hcall : (!decide (e.organizer = caller)) = true
    · rw [if_pos hcall] at hok
      cases hok
    · rw [if_neg hcall] at hok
      by_cases hst : e.is_started = true
      · rw [if_pos hst] at hok
        simp only [Except.ok.injEq, Prod.mk.injEq] at hok
        obtain ⟨he, _⟩ := hok
        subst he
        exact h1
      · rw [if_neg hst] at hok
        simp only [Except.ok.injEq, Prod.mk.injEq] at hok
        obtain ⟨he, _⟩ := hok
        subst he
        exact Event.save_mem_of_mem _ h1
  · intro e log caller e2 log2 hok h1
    rw [cancelEvent] at hok
    by_cases hcall : (!decide (e.organizer = caller)) = true
    · rw [if_pos hcall] at hok
      cases hok
    · rw [if_neg hcall] at hok
      simp only [Except.ok.injEq, Prod.mk.injEq] at hok
      obtain ⟨he, _⟩ := hok
      subst he
      exact Event.save_mem_of_mem _ h1

/-- Witness for C6: join and leave preservation and the organizer-leave
refusal at the concrete sampleEvent. -/
theorem organizer_always_participant_witness :
    ((joinEvent sampleEvent [] 12).2.1.organizer ∈
      (joinEvent sampleEvent [] 12).2.1.participant_user_ids) ∧
    leaveEvent sampleEvent [] 10 = (.organizerForbidden, sampleEvent, []) :=
  ⟨(organizer_always_participant.2.2.1 sampleEvent [] 12 (by decide) (by decide)).1,
    by
      have h := organizer_always_participant.2.2.2.2.1 sampleEvent [] (by decide)
      exact h⟩

/-- C7: a share whose expiry t0 + 4h lies strictly before the observation
time never appears in a friends feed query (which runs after the lazy expiry
sweep), regardless of its stored active flag; and after the sweep every
still-active row is unexpired. -/
theorem expired_share_not_in_feed (fs : List Friendship) (viewer : Nat)
    (db : List LocationShare) (now t0 : Int) (s : LocationShare)
    (hexp : s.expires_at = t0 + fourHours) (hnow : t0 + fourHours < now) :
    s ∉ friendsRecentShares fs viewer (sweepExpiredShares db now) now ∧
    ∀ s2 ∈ sweepExpiredShares db now, s2.is_active = true → now < s2.expires_at := by
  constructor
  · intro hmem
    have h1 : s ∈ (sweepExpiredShares db now).filter (friendsSharePred fs viewer now) :=
      ((List.perm_insertionSort sharedAtDesc _).mem_iff).mp (List.take_subset 20 _ hmem)
    have h2 := (List.mem_filter.mp h1).2
    simp only [friendsSharePred, Bool.and_eq_true, decide_eq_true_eq] at h2
    have h3 : now < s.expires_at := h2.1.2
    rw [hexp] at h3
    omega
  · intro s2 hs2 hact
    rcases List.mem_map.mp hs2 with ⟨s0, _, rfl⟩
    by_cases hc : (decide (s0.expires_at ≤ now) && s0.is_active) = true
    · rw [if_pos hc] at hact
      simp at hact
    · rw [if_neg hc] at hact ⊢
      simp only [Bool.and_eq_true, decide_eq_true_eq] at hc
      by_contra hn
      exact hc ⟨le_of_not_lt hn, hact⟩

/-- Witness for C7: a share of user 2 made at time 0 and observed at
t = 5 hours is absent from the feed of viewer 1. -/
theorem expired_share_not_in_feed_witness :
    (⟨2, "L1", 0, 0 + fourHours, true, "s"⟩ : LocationShare) ∉
      friendsRecentShares [] 1
        (sweepExpiredShares [⟨2, "L1", 0, 0 + fourHours, true, "s"⟩] (5 * 60 * 60))
        (5 * 60 * 60) ∧
    ∀ s2 ∈ sweepExpiredShares [⟨2, "L1", 0, 0 + fourHours, true, "s"⟩] (5 * 60 * 60),
      s2.is_active = true → (5 * 60 * 60 : Int) < s2.expires_at :=
  expired_share_not_in_feed [] 1 [⟨2, "L1", 0, 0 + fourHours, true, "s"⟩]
    (5 * 60 * 60) 0 ⟨2, "L1", 0, 0 + fourHours, true, "s"⟩ rfl (by decide)

/-- C8: the memories feed contains a memory exactly when it is stored,
non-archived, and public, or friends-only with the viewer being the author or
a friend of the author, or private and authored by the viewer; and the feed
is ordered newest-first by creation date. -/
theorem memories_feed_spec (fs : List Friendship) (viewer : Nat) (db : List Memory) :
    (∀ m : Memory, m ∈ memoriesFeed fs viewer db ↔
      (m ∈ db ∧ m.is_archived = false ∧
        (m.visibility = .visPublic ∨
          (m.visibility = .visFriends ∧
            (m.user = viewer ∨ getFriendsMem fs viewer m.user = true)) ∨
          (m.visibility = .visPrivate ∧ m.user = viewer)))) ∧
    List.Sorted creationDesc (memoriesFeed fs viewer db) := by
  constructor
  · intro m
    rw [memoriesFeed, (List.perm_insertionSort creationDesc _).mem_iff,
      List.mem_filter, List.mem_filter]
    simp only [memoryVisibleQ, Bool.or_eq_true, Bool.and_eq_true, decide_eq_true_eq,
      Bool.not_eq_true']
    tauto
  · exact List.sorted_insertionSort creationDesc _

/-- C10: archive_memory succeeds only for the owner, toggles is_archived (so
an archived memory is restored and a non-archived one archived), and changes
no other field of the memory. -/
theorem archive_memory_toggle (m : Memory) (caller : Nat) :
    (m.user = caller →
      archiveMemory m caller = .ok { m with is_archived := !m.is_archived } ∧
      ∀ m2, archiveMemory m caller = .ok m2 →
        m2.is_archived = !m.is_archived ∧ m2.memory_id = m.memory_id ∧
        m2.user = m.user ∧ m2.location = m.location ∧
        m2.creation_date = m.creation_date ∧ m2.memory_title = m.memory_title ∧
        m2.description = m.description ∧ m2.media_type = m.media_type ∧
        m2.visibility = m.visibility ∧ m2.tags = m.tags ∧
        m2.likes_count = m.likes_count ∧ m2.liked_by_user_ids = m.liked_by_user_ids ∧
        m2.view_count = m.view_count) ∧
    (m.user ≠ caller → archiveMemory m caller = .error .notFound) := by
  constructor
  · intro h
    have heq : archiveMemory m caller = .ok { m with is_archived := !m.is_archived } := by
      rw [archiveMemory, if_pos (decide_eq_true h)]
    refine ⟨heq, ?_⟩
    intro m2 h2
    rw [heq] at h2
    injection h2 with h3
    subst h3
    exact ⟨rfl, rfl, rfl, rfl, rfl, rfl, rfl, rfl, rfl, rfl, rfl, rfl, rfl⟩
  · intro h
    rw [archiveMemory, if_neg (by simp [h])]

/-- Witness for C10: the owner (user 3) toggles sampleMemory; user 4 is
rejected with NotFound. -/
theorem archive_memory_toggle_witness :
    archiveMemory sampleMemory 3 =
      .ok { sampleMemory with is_archived := !sampleMemory.is_archived } ∧
    archiveMemory sampleMemory 4 = .error .notFound :=
  ⟨((archive_memory_toggle sampleMemory 3).1 rfl).1,
   (archive_memory_toggle sampleMemory 4).2 (by decide)⟩

end FindMe
